import Mathlib

/-!
Verification of the `koutput_reads` Rust module of WangLabCSU/mire
(`src/rust/src/koutput_reads/mod.rs`) against its natural-language
specification.

The module extracts sequencing reads belonging to a chosen set of taxa and
their descendants from a Kraken2-style classification run.  We embed the
data model and the operations shallowly:

* `TaxonId`s are the textual ids of the Rust code (byte strings, embedded
  as `String`);
* the Rust `FxHashMap`s built by `collect` over an iterator are embedded as
  association lookups where the *last* entry for a key wins, exactly the
  overwrite behaviour of `HashMap::collect`;
* `FxHashSet`s are embedded as `Finset String`;
* the Aho-Corasick automaton compiled from the patterns `taxid ++ ":"` is
  embedded by its defining semantics: it matches a haystack iff some
  pattern occurs in it as a contiguous substring.
-/

namespace Mire

/-- A taxon identifier: an opaque textual id, compared as raw bytes
(`&[u8]` in the Rust code). -/
abbrev TaxonId := String

/-- One entry of the parsed hierarchical classification report
(`kreport`): its own taxid and its lineage.  In the Rust code the
`taxids` field holds the root-to-self lineage of the taxon
(spec §4.1 step 1: each record carries its root-to-self lineage). -/
structure Kreport where
  taxid : TaxonId
  taxids : List TaxonId
deriving Repr, DecidableEq

/-- Lookup in the map built by `collect::<HashMap<_,_>>()` over the report
iterator keyed by `report.taxid` (lines 138-150): for a duplicated key the
last inserted entry wins, so the lookup finds the last report entry with
the given taxid. -/
def lastEntry (kreports : List Kreport) (t : TaxonId) : Option Kreport :=
  kreports.reverse.find? (fun kr => kr.taxid == t)

/-- The `taxid_to_ancestors` map of lines 138-150: taxid → set of its
ancestor taxids (the entry's `taxids` field, collected into a hash set). -/
def taxid_to_ancestors (kreports : List Kreport) (t : TaxonId) :
    Option (Finset TaxonId) :=
  (lastEntry kreports t).map (fun kr => kr.taxids.toFinset)

/-- The test `parents.contains(taxid)` performed inside the reverse scan of
lines 159-168, for a candidate child key `c` of `taxid_to_ancestors`. -/
def ancestorContains (kreports : List Kreport) (c t : TaxonId) : Bool :=
  ((lastEntry kreports c).map (fun kr => kr.taxids.contains t)).getD false

/-- The descendant set computed for one taxid by the reverse scan of lines
159-168: all keys of `taxid_to_ancestors` whose ancestor set contains the
taxid. -/
def descendantsScan (kreports : List Kreport) (t : TaxonId) : Finset TaxonId :=
  ((kreports.map Kreport.taxid).filter
    (fun c => ancestorContains kreports c t)).toFinset

/-- The `taxid_to_descendants` map of lines 154-173: built by iterating the
report entries, keyed by each entry's taxid, valued by the reverse scan
over `taxid_to_ancestors`. -/
def taxid_to_descendants (kreports : List Kreport) (t : TaxonId) :
    Option (Finset TaxonId) :=
  (lastEntry kreports t).map (fun _ => descendantsScan kreports t)

/-- The `include_sets` value of lines 175-181: iterate the report entries,
look each entry's taxid up in `taxid_to_descendants` (`filter_map` over
`get`), and union the results into one hash set. -/
def include_sets (kreports : List Kreport) : Finset TaxonId :=
  (kreports.filterMap
    (fun kr => taxid_to_descendants kreports kr.taxid)).foldr (· ∪ ·) ∅

/-- Modelled from the spec: `taxonomy_kreport` (module `crate::kreport`,
whose source is not among the provided files) parses the hierarchical
report file and returns "the subset of report entries matching those taxa
together with each entry's ancestor lineage" (§4.1), each entry carrying
its root-to-self lineage (§4.1 step 1).  An entry matches the request when
its lineage meets the requested taxa, so the requested taxa's own entries
and every descendant entry are returned — the reading under which the
spec's Scenario A (IncludeSet = {1,2,3}) comes out.  The report contents
are taken as an already-parsed list of entries together with the requested
taxa of interest. -/
def taxonomy_kreport (report : List Kreport) (interest : List TaxonId) :
    List Kreport :=
  report.filter (fun kr => kr.taxids.any (fun a => interest.contains a))

/-- Spec-side notion for C1: the descendants of a taxon "in the report" are
the taxids of the report entries whose lineage contains the taxon. -/
def specDescendants (report : List Kreport) (t : TaxonId) : Finset TaxonId :=
  ((report.filter (fun kr => kr.taxids.contains t)).map Kreport.taxid).toFinset

/-- Spec-side notion for C1: the IncludeSet as the spec words it, the union
over every requested taxon of the taxon itself together with its
descendants in the report. -/
def specIncludeSet (report : List Kreport) (interest : List TaxonId) :
    Finset TaxonId :=
  interest.foldr (fun t acc => ({t} ∪ specDescendants report t) ∪ acc) ∅

/-- The three-taxon report of the spec's Scenario A: taxa {1→root, 2→1,
3→1}, each entry carrying its root-to-self lineage. -/
def scenarioAReport : List Kreport :=
  [⟨"1", ["root", "1"]⟩, ⟨"2", ["root", "1", "2"]⟩, ⟨"3", ["root", "1", "3"]⟩]

example : include_sets (taxonomy_kreport scenarioAReport ["1"]) =
    {"1", "2", "3"} := by decide

example : specIncludeSet scenarioAReport ["1"] = {"1", "2", "3"} := by decide

/-- The report's keys are pairwise distinct: the well-formedness condition
under which the hash maps of lines 138-173 carry one entry per report row. -/
def nodupKeys (ks : List Kreport) : Prop := (ks.map Kreport.taxid).Nodup

theorem contains_iff_mem {l : List TaxonId} {a : TaxonId} :
    l.contains a = true ↔ a ∈ l := by
  show l.elem a = true ↔ a ∈ l
  simp

theorem mem_foldr_union {l : List (Finset TaxonId)} {x : TaxonId} :
    x ∈ l.foldr (· ∪ ·) ∅ ↔ ∃ s ∈ l, x ∈ s := by
  induction l with
  | nil => simp
  | cons a l ih => simp [ih]

theorem lastEntry_isSome {ks : List Kreport} {t : TaxonId}
    (h : ∃ kr ∈ ks, kr.taxid = t) :
    ∃ kr', lastEntry ks t = some kr' ∧ kr' ∈ ks ∧ kr'.taxid = t := by
  obtain ⟨kr, hmem, htax⟩ := h
  have hs : (ks.reverse.find? (fun k => k.taxid == t)).isSome := by
    rw [List.find?_isSome]
    exact ⟨kr, by simpa using hmem, by simp [htax]⟩
  obtain ⟨kr', hfind⟩ := Option.isSome_iff_exists.mp hs
  refine ⟨kr', hfind, ?_, ?_⟩
  · simpa using List.mem_of_find?_eq_some hfind
  · simpa using List.find?_some hfind

theorem lastEntry_eq_of_nodup {ks : List Kreport} {kr : Kreport}
    (hnd : nodupKeys ks) (h : kr ∈ ks) : lastEntry ks kr.taxid = some kr := by
  obtain ⟨kr', hfind, hmem, htax⟩ := lastEntry_isSome ⟨kr, h, rfl⟩
  have : kr' = kr := List.inj_on_of_nodup_map hnd hmem h htax
  rwa [this] at hfind

theorem taxid_to_descendants_eq {ks : List Kreport} {t : TaxonId}
    (h : ∃ kr ∈ ks, kr.taxid = t) :
    taxid_to_descendants ks t = some (descendantsScan ks t) := by
  obtain ⟨kr', hfind, -, -⟩ := lastEntry_isSome h
  unfold taxid_to_descendants
  rw [hfind]
  rfl

theorem mem_descendantsScan {ks : List Kreport} {t x : TaxonId} :
    x ∈ descendantsScan ks t ↔
      (∃ kr ∈ ks, kr.taxid = x) ∧ ancestorContains ks x t = true := by
  unfold descendantsScan
  rw [List.mem_toFinset, List.mem_filter, List.mem_map]

theorem ancestorContains_eq {ks : List Kreport} {krx : Kreport} {t : TaxonId}
    (hnd : nodupKeys ks) (h : krx ∈ ks) :
    ancestorContains ks krx.taxid t = krx.taxids.contains t := by
  unfold ancestorContains
  rw [lastEntry_eq_of_nodup hnd h]
  rfl

theorem mem_include_sets {ks : List Kreport} {x : TaxonId}
    (hnd : nodupKeys ks) :
    x ∈ include_sets ks ↔
      ∃ kr ∈ ks, ∃ krx ∈ ks, krx.taxid = x ∧ kr.taxid ∈ krx.taxids := by
  unfold include_sets
  rw [mem_foldr_union]
  constructor
  · rintro ⟨s, hs, hx⟩
    rw [List.mem_filterMap] at hs
    obtain ⟨kr, hkr, hsome⟩ := hs
    rw [taxid_to_descendants_eq ⟨kr, hkr, rfl⟩] at hsome
    cases hsome
    rw [mem_descendantsScan] at hx
    obtain ⟨⟨krx, hkrx, htax⟩, hanc⟩ := hx
    subst htax
    rw [ancestorContains_eq hnd hkrx] at hanc
    exact ⟨kr, hkr, krx, hkrx, rfl, contains_iff_mem.mp hanc⟩
  · rintro ⟨kr, hkr, krx, hkrx, htax, hanc⟩
    refine ⟨descendantsScan ks kr.taxid, ?_, ?_⟩
    · rw [List.mem_filterMap]
      exact ⟨kr, hkr, taxid_to_descendants_eq ⟨kr, hkr, rfl⟩⟩
    · rw [mem_descendantsScan]
      subst htax
      rw [ancestorContains_eq hnd hkrx]
      exact ⟨⟨krx, hkrx, rfl⟩, contains_iff_mem.mpr hanc⟩

theorem mem_taxonomy_kreport {report : List Kreport} {interest : List TaxonId}
    {kr : Kreport} :
    kr ∈ taxonomy_kreport report interest ↔
      kr ∈ report ∧ ∃ t ∈ interest, t ∈ kr.taxids := by
  unfold taxonomy_kreport
  rw [List.mem_filter, List.any_eq_true]
  constructor
  · rintro ⟨h1, a, ha, hc⟩
    exact ⟨h1, a, contains_iff_mem.mp hc, ha⟩
  · rintro ⟨h1, t, ht, hta⟩
    exact ⟨h1, t, hta, contains_iff_mem.mpr ht⟩

theorem mem_specDescendants {report : List Kreport} {t x : TaxonId} :
    x ∈ specDescendants report t ↔
      ∃ kr ∈ report, t ∈ kr.taxids ∧ kr.taxid = x := by
  unfold specDescendants
  rw [List.mem_toFinset, List.mem_map]
  constructor
  · rintro ⟨kr, hkr, htax⟩
    rw [List.mem_filter] at hkr
    exact ⟨kr, hkr.1, contains_iff_mem.mp hkr.2, htax⟩
  · rintro ⟨kr, hkr, hlin, htax⟩
    exact ⟨kr, List.mem_filter.mpr ⟨hkr, contains_iff_mem.mpr hlin⟩, htax⟩

theorem mem_specIncludeSet {report : List Kreport} {interest : List TaxonId}
    {x : TaxonId} :
    x ∈ specIncludeSet report interest ↔
      ∃ t ∈ interest, x = t ∨ ∃ kr ∈ report, t ∈ kr.taxids ∧ kr.taxid = x := by
  unfold specIncludeSet
  induction interest with
  | nil => simp
  | cons t il ih =>
      simp only [List.foldr_cons, Finset.mem_union, Finset.mem_singleton, ih,
        List.mem_cons, mem_specDescendants]
      constructor
      · rintro ((h | h) | ⟨u, hu, hc⟩)
        · exact ⟨t, Or.inl rfl, Or.inl h⟩
        · exact ⟨t, Or.inl rfl, Or.inr h⟩
        · exact ⟨u, Or.inr hu, hc⟩
      · rintro ⟨u, hu | hu, hc⟩
        · subst hu
          exact Or.inl hc
        · exact Or.inr ⟨u, hu, hc⟩

/-- C1: for every taxon of interest T, the IncludeSet built from the
requested subset of the report (lines 175-181 over `taxonomy_kreport`)
equals the union, over the requested taxa, of the taxon itself together
with all of its descendants in the report — in particular every requested
taxon is itself a member.  Stated for any well-formed report: report
taxids are pairwise distinct, every entry's lineage contains the entry
itself (root-to-self lineage), and every requested taxon has a report
entry. -/
theorem include_sets_eq_spec (report : List Kreport) (interest : List TaxonId)
    (hnd : nodupKeys report)
    (hself : ∀ kr ∈ report, kr.taxid ∈ kr.taxids)
    (hpresent : ∀ t ∈ interest, ∃ kr ∈ report, kr.taxid = t) :
    include_sets (taxonomy_kreport report interest) =
      specIncludeSet report interest := by
  have hsub : List.Sublist ((taxonomy_kreport report interest).map Kreport.taxid)
      (report.map Kreport.taxid) := (List.filter_sublist _).map _
  have hnd' : nodupKeys (taxonomy_kreport report interest) :=
    List.Nodup.sublist hsub hnd
  apply Finset.ext
  intro x
  rw [mem_include_sets hnd', mem_specIncludeSet]
  constructor
  · rintro ⟨kr, hkr, krx, hkrx, htax, hanc⟩
    obtain ⟨hkrxR, t, htI, htlin⟩ := mem_taxonomy_kreport.mp hkrx
    exact ⟨t, htI, Or.inr ⟨krx, hkrxR, htlin, htax⟩⟩
  · rintro ⟨t, htI, hcase⟩
    obtain ⟨krt, hkrtR, hkrtT⟩ := hpresent t htI
    have hkrtLin : t ∈ krt.taxids := by
      have := hself krt hkrtR
      rwa [hkrtT] at this
    have hkrtF : krt ∈ taxonomy_kreport report interest :=
      mem_taxonomy_kreport.mpr ⟨hkrtR, t, htI, hkrtLin⟩
    rcases hcase with rfl | ⟨krd, hkrdR, htlind, htaxd⟩
    · exact ⟨krt, hkrtF, krt, hkrtF, hkrtT, hself krt hkrtR⟩
    · have hkrdF : krd ∈ taxonomy_kreport report interest :=
        mem_taxonomy_kreport.mpr ⟨hkrdR, t, htI, htlind⟩
      refine ⟨krt, hkrtF, krd, hkrdF, htaxd, ?_⟩
      rwa [hkrtT]

/-- Scenario A witness for C1: report {1→root, 2→1, 3→1}, taxa of interest
{1}; the hypotheses hold concretely and the IncludeSet is exactly
{1, 2, 3}. -/
theorem include_sets_eq_spec_witness :
    include_sets (taxonomy_kreport scenarioAReport ["1"]) =
        specIncludeSet scenarioAReport ["1"] ∧
      specIncludeSet scenarioAReport ["1"] = {"1", "2", "3"} :=
  ⟨include_sets_eq_spec scenarioAReport ["1"]
    (by unfold nodupKeys; decide) (by decide) (by decide), by decide⟩

/-- C8: for taxa A and B appearing in the parsed report, B is a member of
the `taxid_to_descendants` entry for A exactly when A is a member of the
`taxid_to_ancestors` entry for B — the reverse scan of lines 154-173
builds exactly the inverse relation of the ancestor map. -/
theorem descendants_inverse_ancestors (ks : List Kreport) (A B : TaxonId)
    (hA : A ∈ ks.map Kreport.taxid) (hB : B ∈ ks.map Kreport.taxid) :
    (∃ s, taxid_to_descendants ks A = some s ∧ B ∈ s) ↔
      ∃ s, taxid_to_ancestors ks B = some s ∧ A ∈ s := by
  rw [List.mem_map] at hA hB
  obtain ⟨kra, hkra, hta⟩ := hA
  obtain ⟨krb, hkrb, htb⟩ := hB
  obtain ⟨krb', hfindb, hmemb', htaxb'⟩ := lastEntry_isSome ⟨krb, hkrb, htb⟩
  have hdesc : taxid_to_descendants ks A = some (descendantsScan ks A) :=
    taxid_to_descendants_eq ⟨kra, hkra, hta⟩
  have hanc : taxid_to_ancestors ks B = some krb'.taxids.toFinset := by
    unfold taxid_to_ancestors
    rw [hfindb]
    rfl
  constructor
  · rintro ⟨s, hs, hmem⟩
    rw [hdesc] at hs
    cases hs
    rw [mem_descendantsScan] at hmem
    obtain ⟨-, hcont⟩ := hmem
    unfold ancestorContains at hcont
    rw [hfindb] at hcont
    refine ⟨krb'.taxids.toFinset, hanc, ?_⟩
    rw [List.mem_toFinset]
    exact contains_iff_mem.mp hcont
  · rintro ⟨s, hs, hmem⟩
    rw [hanc] at hs
    cases hs
    rw [List.mem_toFinset] at hmem
    refine ⟨descendantsScan ks A, hdesc, ?_⟩
    rw [mem_descendantsScan]
    refine ⟨⟨krb, hkrb, htb⟩, ?_⟩
    unfold ancestorContains
    rw [hfindb]
    exact contains_iff_mem.mpr hmem

/-- Witness for C8 at the Scenario A report with A = 1, B = 2: both report
taxids, and the equivalence instantiates. -/
theorem descendants_inverse_ancestors_witness :
    (∃ s, taxid_to_descendants scenarioAReport "1" = some s ∧ "2" ∈ s) ↔
      ∃ s, taxid_to_ancestors scenarioAReport "2" = some s ∧ "1" ∈ s :=
  descendants_inverse_ancestors scenarioAReport "1" "2" (by decide) (by decide)

/-- C10: every member of the IncludeSet is the taxid of some entry of the
list the taxonomy report parse returned: `include_sets` only collects keys
of the ancestor map, so a taxid occurring only inside some lineage (never
as an entry's own taxid) is never included. -/
theorem include_sets_subset_report (ks : List Kreport) (x : TaxonId)
    (hx : x ∈ include_sets ks) : ∃ kr ∈ ks, kr.taxid = x := by
  unfold include_sets at hx
  rw [mem_foldr_union] at hx
  obtain ⟨s, hs, hxs⟩ := hx
  rw [List.mem_filterMap] at hs
  obtain ⟨kr, hkr, hsome⟩ := hs
  rw [taxid_to_descendants_eq ⟨kr, hkr, rfl⟩] at hsome
  cases hsome
  exact (mem_descendantsScan.mp hxs).1

/-- Witness for C10: in Scenario A, "2" is in the IncludeSet and is indeed
the taxid of a report entry (while "root", which occurs only inside
lineages, is not in the IncludeSet). -/
theorem include_sets_subset_report_witness :
    ∃ kr ∈ scenarioAReport, kr.taxid = "2" :=
  include_sets_subset_report scenarioAReport "2" (by decide)

/-- Substring occurrence: `needle` occurs contiguously inside `hay`. -/
def isSubstring (needle hay : String) : Bool :=
  hay.toList.tails.any (fun t => needle.toList.isPrefixOf t)

/-- The pattern list built by lines 193-201: one pattern per excluded
taxon, its textual id with the field separator `:` appended. -/
def excludePatterns (exclude : List TaxonId) : List String :=
  exclude.map (fun taxid => taxid ++ ":")

/-- The compiled exclusion predicate: lines 191-206 compile an Aho-Corasick
automaton (DFA kind) over `excludePatterns`, and the classification filter
runs its `is_match` over each record's evidence string.  The automaton's
defining semantics is multi-substring search: it matches a haystack iff
some pattern occurs in it as a contiguous substring. -/
def excludeMatch (exclude : List TaxonId) (s : String) : Bool :=
  (excludePatterns exclude).any (fun p => isSubstring p s)

/-- Split a character list at spaces (the whitespace separating the
evidence-string tokens). -/
def splitTokensAux : List Char → List Char → List (List Char)
  | [], acc => [acc.reverse]
  | c :: rest, acc =>
      if c = ' ' then acc.reverse :: splitTokensAux rest []
      else splitTokensAux rest (c :: acc)

/-- The whitespace-separated tokens of an evidence string. -/
def splitTokens (s : String) : List (List Char) := splitTokensAux s.toList []

/-- Spec-side notion for C2: the evidence string contains an excluded-taxon
token, i.e. some whitespace-separated token of the form `taxid:count`
whose taxid field is an excluded taxon. -/
def specTokenMatch (exclude : List TaxonId) (s : String) : Bool :=
  (splitTokens s).any
    (fun tok => exclude.any (fun t => (t ++ ":").toList.isPrefixOf tok))

theorem isSubstring_iff {needle hay : String} :
    isSubstring needle hay = true ↔ List.IsInfix needle.toList hay.toList := by
  unfold isSubstring
  rw [List.any_eq_true, List.infix_iff_prefix_suffix]
  constructor
  · rintro ⟨t, ht, hp⟩
    exact ⟨t, List.isPrefixOf_iff_prefix.mp hp, (List.mem_tails _ _).mp ht⟩
  · rintro ⟨t, hp, hs⟩
    exact ⟨t, (List.mem_tails _ _).mpr hs, List.isPrefixOf_iff_prefix.mpr hp⟩

/-- C2 counterexample: excluding taxon 5, the compiled predicate matches
the evidence string "15:2" although that string contains no excluded-taxon
token — 5 appears only as a numeric substring (here a suffix) of the
different taxon 15's token.  So the predicate is not equivalent to
"contains an excluded-taxon token". -/
theorem excludeMatch_substring_false_positive :
    excludeMatch ["5"] "15:2" = true ∧ specTokenMatch ["5"] "15:2" = false := by
  decide

/-- C2 amended: the compiled predicate returns true iff some excluded
taxon's pattern, its id followed by `:`, occurs as a contiguous substring
of the evidence string.  Consequently an evidence string containing the
token "T:…" for an excluded taxon T always matches, and a numeric-prefix
false positive is impossible (excluding taxon 5 does not match "562:3");
only an excluded id standing immediately before a separator — e.g. as the
suffix of a longer taxid — can match without a genuine token. -/
theorem excludeMatch_iff :
    (∀ (excl : List TaxonId) (s : String),
        excludeMatch excl s = true ↔
          ∃ t ∈ excl, List.IsInfix (t ++ ":").toList s.toList) ∧
      excludeMatch ["5"] "5:13" = true ∧ excludeMatch ["5"] "562:3" = false := by
  refine ⟨?_, by decide, by decide⟩
  intro excl s
  unfold excludeMatch excludePatterns
  rw [List.any_eq_true]
  constructor
  · rintro ⟨p, hp, hsub⟩
    rw [List.mem_map] at hp
    obtain ⟨t, ht, rfl⟩ := hp
    exact ⟨t, ht, isSubstring_iff.mp hsub⟩
  · rintro ⟨t, ht, hinf⟩
    exact ⟨t ++ ":", List.mem_map.mpr ⟨t, ht, rfl⟩, isSubstring_iff.mpr hinf⟩

/-- One row of classification output (§6): classification flag, read
identifier, assigned taxid, sequence length, and the space-delimited
evidence string of `taxid:count` tokens. -/
structure KoutputRecord where
  flag : String
  readId : String
  taxid : TaxonId
  seqLen : Nat
  evidence : String
deriving Repr, DecidableEq

/-- Modelled from the spec: the per-record decision rule of
`koutput::parse_koutput` (module not among the provided files; §4.3): a
record is retained iff its assigned taxid is a member of the IncludeSet
and, when an exclusion predicate was supplied, the predicate returns false
on its evidence string. -/
def retains (includeSet : Finset TaxonId) (exclude : Option (List TaxonId))
    (r : KoutputRecord) : Bool :=
  decide (r.taxid ∈ includeSet) &&
    match exclude with
    | none => true
    | some e => !excludeMatch e r.evidence

/-- Modelled from the spec: `koutput::parse_koutput` streams the
classification-output rows and populates the MatchIndex with exactly the
records passing the decision rule (§4.3); the MatchIndex is embedded as
the list of retained records (keyed by their read identifiers). -/
def parse_koutput (records : List KoutputRecord) (includeSet : Finset TaxonId)
    (exclude : Option (List TaxonId)) : List KoutputRecord :=
  records.filter (retains includeSet exclude)

/-- Scenario B row that must be dropped: assigned taxon 3 but evidence
mentioning the excluded taxon 2. -/
def rowDropB : KoutputRecord := ⟨"C", "r1", "3", 100, "3:10 2:5"⟩

/-- Scenario B row that must be retained: assigned taxon 3, evidence
mentioning only taxon 3. -/
def rowKeepB : KoutputRecord := ⟨"C", "r2", "3", 100, "3:10"⟩

/-- C3: a classification record is retained in the MatchIndex iff its
assigned taxid is a member of the IncludeSet and either no exclusion
predicate was supplied or the predicate returns false on its evidence
string; concretely (Scenario B), with the Scenario A IncludeSet and
exclude = {2}, the row assigned taxon 3 with evidence containing "2:5" is
dropped while the row assigned taxon 3 with evidence "3:10" is retained. -/
theorem parse_koutput_retention :
    (∀ (records : List KoutputRecord) (inc : Finset TaxonId)
        (excl : Option (List TaxonId)) (r : KoutputRecord),
        r ∈ parse_koutput records inc excl ↔
          r ∈ records ∧ r.taxid ∈ inc ∧
            (excl = none ∨
              ∃ e, excl = some e ∧ excludeMatch e r.evidence = false)) ∧
      parse_koutput [rowDropB, rowKeepB]
          (include_sets (taxonomy_kreport scenarioAReport ["1"]))
          (some ["2"]) = [rowKeepB] := by
  constructor
  · intro records inc excl r
    unfold parse_koutput retains
    rw [List.mem_filter]
    cases excl with
    | none => simp
    | some e => simp [Bool.and_eq_true, and_assoc]
  · decide

/-- The file-touching stages of the pipeline, in controller order (§4.5):
parsing the hierarchical report, filtering the classification-output
stream, extracting reads from the sequence files. -/
inductive Stage
  | reportParse
  | koutputFilter
  | readExtract
deriving Repr, DecidableEq

/-- The error kind the embedded controller can fail with: an out-of-range
compression level (line 131-132). -/
inductive PipelineError
  | invalidConfig (level : Int)
deriving Repr, DecidableEq

/-- Modelled from the spec: the compression-level validation of lines
131-132 delegates to the codec boundary (`CompressionLvl::new` of
libdeflater, external to the repository); the codec's legal levels are the
integers 0 through 12, and any other value is rejected (§6: "integer level
validated against the underlying codec's legal range"). -/
def legalCompressionLevel (level : Int) : Bool := 0 ≤ level && level ≤ 12

/-- The inputs of `koutput_reads_internal` (lines 112-127), with the
host-runtime `Robj` arguments already marshalled to plain values (argument
marshalling is outside the spec's scope, §1): the report contents, the
requested taxa, the optional exclusion list, the classification-output
rows, and the compression level. -/
structure PipelineInput where
  report : List Kreport
  interest : List TaxonId
  exclude : Option (List TaxonId)
  records : List KoutputRecord
  level : Int

/-- The observable outcome of one run of the controller: the returned
result, the file-touching stages executed in order, and whether an output
file was produced. -/
structure PipelineRun where
  result : Except PipelineError Unit
  stages : List Stage
  outputWritten : Bool

/-- The MatchIndex the classification filter stage produces for a given
input (lines 209-216): the koutput rows retained against the IncludeSet
and the optional exclusion predicate. -/
def matchIndex (inp : PipelineInput) : List KoutputRecord :=
  parse_koutput inp.records
    (include_sets (taxonomy_kreport inp.report inp.interest)) inp.exclude

/-- The controller `koutput_reads_internal` (lines 112-238), mirroring the
source order: validate the compression level first (lines 131-132, before
any file is opened); then parse the report (line 135), build the include
set and the exclusion matcher, and stream-filter the classification output
(lines 209-216); if the MatchIndex is empty, return success at once
without running the extraction stage or producing an output file (lines
218-221); otherwise run the read-extraction stage, which writes the
compressed output file (lines 224-236). -/
def koutput_reads_internal (inp : PipelineInput) : PipelineRun :=
  if legalCompressionLevel inp.level then
    if (matchIndex inp).isEmpty then
      ⟨.ok (), [.reportParse, .koutputFilter], false⟩
    else
      ⟨.ok (), [.reportParse, .koutputFilter, .readExtract], true⟩
  else
    ⟨.error (.invalidConfig inp.level), [], false⟩

/-- The error formatting of line 53: an internal error is delivered to the
caller as a single descriptive string. -/
def describeError : PipelineError → String
  | .invalidConfig level => "Invalid compression_level: " ++ toString level

/-- The `#[extendr]` wrapper `koutput_reads` (lines 15-54): it forwards to
the internal pipeline and maps the error, if any, to its formatted string;
its result type is `Result<(), String>`. -/
def koutput_reads (inp : PipelineInput) : Except String Unit :=
  match (koutput_reads_internal inp).result with
  | .ok u => .ok u
  | .error e => .error (describeError e)

/-- C4: when the MatchIndex is empty (and the configuration is valid, so
the run reaches the filter stage), the pipeline returns success, the
read-extraction stage never runs (no sequence file is opened), and no
output file is produced — the short-circuit of lines 218-221. -/
theorem empty_match_short_circuit (inp : PipelineInput)
    (hlevel : legalCompressionLevel inp.level = true)
    (hempty : matchIndex inp = []) :
    (koutput_reads_internal inp).result = .ok () ∧
      Stage.readExtract ∉ (koutput_reads_internal inp).stages ∧
      (koutput_reads_internal inp).outputWritten = false := by
  simp [koutput_reads_internal, hlevel, hempty]

/-- A valid-configuration run whose koutput stream holds no rows at all,
so the MatchIndex is empty. -/
def emptyRunInput : PipelineInput := ⟨scenarioAReport, ["1"], none, [], 6⟩

/-- Witness for C4 at a concrete input with an empty MatchIndex. -/
theorem empty_match_short_circuit_witness :
    (koutput_reads_internal emptyRunInput).result = .ok () ∧
      Stage.readExtract ∉ (koutput_reads_internal emptyRunInput).stages ∧
      (koutput_reads_internal emptyRunInput).outputWritten = false :=
  empty_match_short_circuit emptyRunInput (by decide) (by decide)

/-- C5: for every compression level outside the codec's legal range, the
pipeline fails with the invalid-configuration error and no stage runs: no
report parsing, no classification filtering, no extraction, and no output
file — validation (lines 131-132) precedes all of them. -/
theorem invalid_level_fails_fast (inp : PipelineInput)
    (hlevel : legalCompressionLevel inp.level = false) :
    (koutput_reads_internal inp).result =
        .error (.invalidConfig inp.level) ∧
      (koutput_reads_internal inp).stages = [] ∧
      (koutput_reads_internal inp).outputWritten = false := by
  simp [koutput_reads_internal, hlevel]

/-- A run configured with compression level 13, outside the codec's legal
range 0..12. -/
def badLevelInput : PipelineInput := ⟨scenarioAReport, ["1"], none, [rowKeepB], 13⟩

/-- Witness for C5 at the concrete out-of-range level 13. -/
theorem invalid_level_fails_fast_witness :
    (koutput_reads_internal badLevelInput).result =
        .error (.invalidConfig badLevelInput.level) ∧
      (koutput_reads_internal badLevelInput).stages = [] ∧
      (koutput_reads_internal badLevelInput).outputWritten = false :=
  invalid_level_fails_fast badLevelInput (by decide)

/-- A successful run retaining exactly one record. -/
def oneMatchInput : PipelineInput :=
  ⟨scenarioAReport, ["1"], none, [rowKeepB], 6⟩

/-- A successful run retaining exactly two records. -/
def twoMatchInput : PipelineInput :=
  ⟨scenarioAReport, ["1"], none, [rowDropB, rowKeepB], 6⟩

/-- C7 counterexample: two successful runs that retain different numbers
of records (one and two) deliver the identical value to the caller — the
bare `Ok(())` of `Result<(), String>` — so the success result carries no
count of retained records. -/
theorem success_carries_no_count :
    koutput_reads oneMatchInput = koutput_reads twoMatchInput ∧
      (matchIndex oneMatchInput).length = 1 ∧
      (matchIndex twoMatchInput).length = 2 :=
  ⟨rfl, by decide, by decide⟩

/-- C7 amended: the result delivered to the caller is the bare success
`Ok(())` — carrying no record count — whenever the pipeline succeeds
(whether or not any record was retained), and on failure a single
structured failure string describing the first fatal error encountered. -/
theorem koutput_reads_result_contract (inp : PipelineInput) :
    koutput_reads inp =
      if legalCompressionLevel inp.level then Except.ok ()
      else Except.error (describeError (.invalidConfig inp.level)) := by
  unfold koutput_reads koutput_reads_internal
  cases h : legalCompressionLevel inp.level with
  | true => cases hm : (matchIndex inp).isEmpty <;> simp [h, hm]
  | false => simp [h]

end Mire
